import Mathlib

/- Verification of the decode/validate semantics of the Wireshark Lua dissectors
   emitted by src/pythonscripts/gen_diss2.py.

   The Python script is a code generator: for each endpoint (IP) it emits a Lua
   dissector that walks the packet buffer over the declared field list, and it
   also emits one "static" dissector (no DPI validation) from the first
   endpoint's field list.  This file gives a shallow embedding of the emitted
   Lua decode logic, parameterised by the field list, and proves properties of
   that embedding.

   Modelling conventions:
   - a packet buffer is a `List Nat` of bytes (values taken mod 256);
   - `buffer(off, n):uint()` / `:uint64()` are modelled as the big-endian value
     of the n sliced bytes;
   - `string.unpack(">f"/">d", bytes)` raises in Lua when the byte string is
     shorter than 4/8; otherwise the IEEE-754 value is decoded exactly into a
     rational (or inf/nan) - IEEE decoding is exact, no float arithmetic is
     ever performed by the emitted code, only comparisons;
   - Lua errors (raises) are modelled as `Except.error ()`: the emitted
     decomposition loop computes `(1 << bits_per_field)` where
     `bits_per_field = total_bits / count` is Lua float division, which raises
     when the width is not integral, and bit ops on non-integer values raise;
     the static dissector's dynamic branch calls
     `table.insert(error_messages, ...)` with `error_messages` undeclared
     (nil), which raises;
   - host-specific display of floats in the info column is abstracted by
     `fvalRepr`; no claim depends on it. -/

namespace GenDiss

/- Field types accepted by the generator (gen_diss2.py, ProtoField emission). -/
inductive FieldType
  | int
  | float
  | double
  | char
  | long
  | bool
  | bitfield
  | other
deriving DecidableEq, Repr

/- One field declaration from the DPI JSON, as consumed by the generator. -/
structure FieldSpec where
  name : String
  field_type : FieldType
  min_size : Nat
  max_size : Nat
  is_dynamic_array : Bool
  size_defining_field : String
  min_value : Option Int
  max_value : Option Int
  bitfields_count : Option Nat
deriving DecidableEq, Repr

/- Exact value of an IEEE-754 float decoded from raw bytes: a rational for
   finite values, plus the infinities and nan. -/
inductive FVal
  | fin (q : ℚ)
  | posInf
  | negInf
  | nan
deriving DecidableEq, Repr

/- A Lua value stored in a dissector local / in parsed_values. -/
inductive LuaVal
  | num (n : Nat)
  | str (s : String)
  | flt (v : FVal)
deriving DecidableEq, Repr

/- Big-endian unsigned value of a byte list (buffer(off, n):uint() and
   :uint64() in the emitted Lua). -/
def beNat (bs : List Nat) : Nat :=
  bs.foldl (fun a b => a * 256 + b % 256) 0

/- buffer(off, len): the len bytes starting at off. -/
def slice (buf : List Nat) (off len : Nat) : List Nat :=
  (buf.drop off).take len

/- Emitted Lua helper popcount: while x > 0 do count = count + x % 2; x = floor(x/2). -/
def popcountAux : Nat → Nat → Nat
  | 0, _ => 0
  | fuel + 1, x => if x = 0 then 0 else x % 2 + popcountAux fuel (x / 2)

def popcount (x : Nat) : Nat := popcountAux x x

/- Emitted Lua helper to_binary_str: for i = bits - 1, 0, -1 append bit i of num. -/
def toBinaryStr (num bits : Nat) : String :=
  String.mk ((List.range bits).map (fun k => if num.testBit (bits - 1 - k) then '1' else '0'))

/- buffer(off, n):string() - the bytes as characters. -/
def bytesToStr (bs : List Nat) : String :=
  String.mk (bs.map (fun b => Char.ofNat (b % 256)))

/- Exact decoding of a 4-byte big-endian IEEE-754 single (string.unpack ">f"). -/
def decodeF32 (bs : List Nat) : FVal :=
  let n : Nat := beNat bs
  let sign : Nat := n / 2 ^ 31 % 2
  let e : Nat := n / 2 ^ 23 % 2 ^ 8
  let frac : Nat := n % 2 ^ 23
  if e = 255 then
    if frac = 0 then (if sign = 1 then .negInf else .posInf) else .nan
  else
    let mag : ℚ :=
      if e = 0 then (frac : ℚ) / (2 ^ 149 : ℚ)
      else (((2 ^ 23 + frac : Nat) : ℚ) * ((2 ^ e : Nat) : ℚ)) / (2 ^ 150 : ℚ)
    .fin (if sign = 1 then -mag else mag)

/- Exact decoding of an 8-byte big-endian IEEE-754 double (string.unpack ">d"). -/
def decodeF64 (bs : List Nat) : FVal :=
  let n : Nat := beNat bs
  let sign : Nat := n / 2 ^ 63 % 2
  let e : Nat := n / 2 ^ 52 % 2 ^ 11
  let frac : Nat := n % 2 ^ 52
  if e = 2047 then
    if frac = 0 then (if sign = 1 then .negInf else .posInf) else .nan
  else
    let mag : ℚ :=
      if e = 0 then (frac : ℚ) / (2 ^ 1074 : ℚ)
      else (((2 ^ 52 + frac : Nat) : ℚ) * ((2 ^ e : Nat) : ℚ)) / (2 ^ 1075 : ℚ)
    .fin (if sign = 1 then -mag else mag)

/- Extraction of one field's value from its sliced bytes, per field type
   (gen_diss2.py lines 208-220 / 263-275).  int/bool/long/bitfield use
   uint()/uint64(); float/double go through bytes():raw() and string.unpack,
   which raises when fewer than 4/8 bytes are available; everything else is
   read as a string. -/
def extractValue (ft : FieldType) (bytes : List Nat) : Except Unit LuaVal :=
  match ft with
  | .int => .ok (.num (beNat bytes))
  | .bool => .ok (.num (beNat bytes))
  | .long => .ok (.num (beNat bytes))
  | .bitfield => .ok (.num (beNat bytes))
  | .float => if bytes.length < 4 then .error () else .ok (.flt (decodeF32 (bytes.take 4)))
  | .double => if bytes.length < 8 then .error () else .ok (.flt (decodeF64 (bytes.take 8)))
  | .char => .ok (.str (bytesToStr bytes))
  | .other => .ok (.str (bytesToStr bytes))

/- Lua table assignment t[k] = v: replace an existing binding, else append. -/
def setVal (vs : List (String × LuaVal)) (k : String) (v : LuaVal) : List (String × LuaVal) :=
  if vs.any (fun p => p.1 == k) then
    vs.map (fun p => if p.1 == k then (k, v) else p)
  else vs ++ [(k, v)]

/- Reading a Lua local variable by name. -/
def lookupVal (vs : List (String × LuaVal)) (k : String) : Option LuaVal :=
  match vs.find? (fun p => p.1 == k) with
  | some p => some p.2
  | none => none

/- The emitted decomposition loop body: sub-value i of the raw value, with
   group width totalBits / n, most-significant group first:
   bit.band(bit.rshift(raw, (n - 1 - i) * bits_per_field), (1 << bits_per_field) - 1). -/
def decompose (raw totalBits n : Nat) : List Nat :=
  (List.range n).map
    (fun i => (raw >>> ((n - 1 - i) * (totalBits / n))) &&& ((1 <<< (totalBits / n)) - 1))

/- Synthesized sub-field name: '{field_name}_bf' .. i. -/
def bfName (name : String) (i : Nat) : String :=
  name ++ "_bf" ++ Nat.repr i

/- Store the decomposed sub-values under their synthesized names. -/
def storeBf (vs : List (String × LuaVal)) (name : String) (subs : List Nat) :
    List (String × LuaVal) :=
  subs.enum.foldl (fun acc p => setVal acc (bfName name p.1) (.num p.2)) vs

/- The decomposition step for one field (emitted only when bitfields_count is
   set and non-zero; the generator never emits it for bitfield-typed fields).
   When the bit width does not divide evenly, `1 << bits_per_field` has a
   fractional shift and Lua raises; bit ops on a non-numeric local also raise. -/
def decomposeStep (vs : List (String × LuaVal)) (name : String) (v : LuaVal)
    (lenBytes : Nat) (cnt : Option Nat) : Except Unit (List (String × LuaVal)) :=
  match cnt with
  | none => .ok vs
  | some n =>
    if n = 0 then .ok vs
    else if (lenBytes * 8) % n ≠ 0 then .error ()
    else
      match v with
      | .num raw => .ok (storeBf vs name (decompose raw (lenBytes * 8) n))
      | _ => .error ()

/- Lua comparison value < m for the range check, on a decoded value. -/
def fvalLtInt (v : FVal) (m : Int) : Bool :=
  match v with
  | .fin q => decide (q < (m : ℚ))
  | .negInf => true
  | .posInf => false
  | .nan => false

def fvalGtInt (v : FVal) (m : Int) : Bool :=
  match v with
  | .fin q => decide ((m : ℚ) < q)
  | .negInf => false
  | .posInf => true
  | .nan => false

/- The emitted range test `value < min_val or value > max_val`. -/
def valOutOfRange (v : LuaVal) (mn mx : Int) : Bool :=
  match v with
  | .num k => decide ((k : Int) < mn) || decide (mx < (k : Int))
  | .flt fv => fvalLtInt fv mn || fvalGtInt fv mx
  | .str _ => false

/- The generator emits the range check only for these field types
   (gen_diss2.py line 224). -/
def numericRangeType (ft : FieldType) : Bool :=
  decide (ft = .int) || decide (ft = .bool) || decide (ft = .long) ||
    decide (ft = .float) || decide (ft = .double)

/- Error message texts exactly as emitted. -/
def notEnoughMsg (name : String) : String := "Not enough bytes for " ++ name

def outOfRangeMsg (name : String) : String := name ++ " out of range"

def lengthRangeMsg (name : String) : String := name ++ " length out of range"

def bitMismatchMsg (name cntStr actualStr : String) : String :=
  "Bitfield " ++ name ++ " expected " ++ cntStr ++ " bits set, got " ++ actualStr

/- Dissector state: cursor, accumulated error messages, parsed_values table,
   and the Lua locals introduced by `local {field_name} = ...` (the dynamic
   branch reads the size-defining field from this local, not from
   parsed_values - for a bitfield the local is numeric while parsed_values
   holds the binary string). -/
structure St where
  offset : Nat
  errors : List String
  values : List (String × LuaVal)
  locals : List (String × LuaVal)
deriving DecidableEq, Repr

def initSt : St := ⟨0, [], [], []⟩

/- One field of the per-IP (full validation) dissector, gen_diss2.py lines
   177-291.  Returns the new state and whether the dissector returned early
   (`true` = the emitted `return` ran, aborting all later fields);
   `Except.error` is a Lua raise.

   Branch order follows the generator: bitfield first (regardless of
   is_dynamic_array), then fixed-size, then dynamic.
   Note the fixed-size bounds check (lines 204-207) returns WITHOUT recording
   an error message or setting dpi_error, unlike the bitfield (181-186) and
   dynamic (257-262) bounds checks. -/
def processField (buf : List Nat) (s : St) (f : FieldSpec) : Except Unit (St × Bool) :=
  if f.field_type = .bitfield then
    if buf.length < s.offset + f.min_size then
      .ok ({ s with errors := s.errors ++ [notEnoughMsg f.name] }, true)
    else
      let v := beNat (slice buf s.offset f.min_size)
      let errors1 :=
        match f.bitfields_count with
        | some c =>
          if popcount v ≠ c then
            s.errors ++ [bitMismatchMsg f.name (Nat.repr c) (Nat.repr (popcount v))]
          else s.errors
        | none =>
          s.errors ++ [bitMismatchMsg f.name "None" (Nat.repr (popcount v))]
      .ok ({ offset := s.offset + f.min_size,
             errors := errors1,
             values := setVal s.values f.name (.str (toBinaryStr v (f.min_size * 8))),
             locals := setVal s.locals f.name (.num v) }, false)
  else if f.is_dynamic_array = false then
    if buf.length < s.offset + f.min_size then
      .ok (s, true)
    else
      match extractValue f.field_type (slice buf s.offset f.min_size) with
      | .error e => .error e
      | .ok v =>
        let errors1 :=
          match f.min_value, f.max_value with
          | some mn, some mx =>
            if numericRangeType f.field_type && valOutOfRange v mn mx then
              s.errors ++ [outOfRangeMsg f.name]
            else s.errors
          | _, _ => s.errors
        match decomposeStep (setVal s.values f.name v) f.name v f.min_size f.bitfields_count with
        | .error e => .error e
        | .ok values2 =>
          .ok ({ offset := s.offset + f.min_size,
                 errors := errors1,
                 values := values2,
                 locals := setVal s.locals f.name v }, false)
  else
    match lookupVal s.locals f.size_defining_field with
    | some (.num L) =>
      let errors1 :=
        if L < f.min_size ∨ f.max_size < L then
          s.errors ++ [lengthRangeMsg f.name]
        else s.errors
      if buf.length < s.offset + L then
        .ok ({ s with errors := errors1 ++ [notEnoughMsg f.name] }, true)
      else
        match extractValue f.field_type (slice buf s.offset L) with
        | .error e => .error e
        | .ok v =>
          match decomposeStep (setVal s.values f.name v) f.name v L f.bitfields_count with
          | .error e => .error e
          | .ok values2 =>
            .ok ({ offset := s.offset + L,
                   errors := errors1,
                   values := values2,
                   locals := setVal s.locals f.name v }, false)
    | _ => .error ()

/- Walk the field list in declared order; a `return` (halt) skips all later
   fields. -/
def runFields (buf : List Nat) : St → List FieldSpec → Except Unit (St × Bool)
  | s, [] => .ok (s, false)
  | s, f :: fs =>
    match processField buf s f with
    | .error e => .error e
    | .ok (s1, true) => .ok (s1, true)
    | .ok (s1, false) => runFields buf s1 fs

/- Lua tostring of a stored value, for the info summary. -/
def fvalRepr : FVal → String
  | .fin q => Int.repr q.num ++ "/" ++ Nat.repr q.den
  | .posInf => "inf"
  | .negInf => "-inf"
  | .nan => "nan"

def displayVal : LuaVal → String
  | .num n => Nat.repr n
  | .str s => s
  | .flt fv => fvalRepr fv

def reportParts (vs : List (String × LuaVal)) : List String :=
  vs.map (fun p => p.1 ++ "=" ++ displayVal p.2)

/- Lua string order (byte-wise lexicographic, here over characters). -/
def charsLt : List Char → List Char → Bool
  | _, [] => false
  | [], _ :: _ => true
  | a :: as, b :: bs => if a < b then true else if b < a then false else charsLt as bs

def strLeB (a b : String) : Bool := !(charsLt b.data a.data)

def insertStr (x : String) : List String → List String
  | [] => [x]
  | y :: ys => if strLeB x y then x :: y :: ys else y :: insertStr x ys

/- table.sort(parts): ascending order under Lua string <. -/
def sortStrings : List String → List String
  | [] => []
  | x :: xs => insertStr x (sortStrings xs)

/- Success-path info line: sorted, comma-joined name=value parts. -/
def summaryStr (vs : List (String × LuaVal)) : String :=
  String.intercalate ", " (sortStrings (reportParts vs))

/- Error-path info line. -/
def dpiErrorStr (errs : List String) : String :=
  "[DPI Error: " ++ String.intercalate "; " errs ++ "]"

/- Observable outcome of one dissector call: the parsed values, the
   accumulated error messages, whether the walk aborted early, and the info
   column text (none when the dissector returned before the reporting code:
   the emitted `return` statements skip lines 301-312). -/
structure Outcome where
  values : List (String × LuaVal)
  errors : List String
  halted : Bool
  info : Option String
deriving DecidableEq, Repr

/- The per-IP (full validation) dissector, gen_diss2.py lines 146-312.
   A zero-length buffer returns before any processing (line 147).
   After the walk, the info column is set only if no `return` ran:
   dpi_error (equivalently, a non-empty error list) selects the error format,
   otherwise the sorted summary. -/
def fullRun (fl : List FieldSpec) (buf : List Nat) : Except Unit Outcome :=
  if buf.length = 0 then .ok ⟨[], [], true, none⟩
  else
    match runFields buf initSt fl with
    | .error e => .error e
    | .ok (s, halted) =>
      .ok ⟨s.values, s.errors, halted,
        if halted then none
        else if s.errors.isEmpty then some (summaryStr s.values)
        else some (dpiErrorStr s.errors)⟩

/- One field of the static dissector (no DPI tests), gen_diss2.py lines
   428-526.  The bitfield popcount mismatch only adds tree expert info
   (no message list exists); the numeric range check is not emitted at all.
   The dynamic branch references the undeclared `error_messages` in both its
   length-range and bounds checks (lines 490, 495): `table.insert(nil, ...)`
   raises, modelled as `Except.error`. -/
def staticProcessField (buf : List Nat) (s : St) (f : FieldSpec) : Except Unit (St × Bool) :=
  if f.field_type = .bitfield then
    if buf.length < s.offset + f.min_size then
      .ok (s, true)
    else
      let v := beNat (slice buf s.offset f.min_size)
      .ok ({ s with
             offset := s.offset + f.min_size,
             values := setVal s.values f.name (.str (toBinaryStr v (f.min_size * 8))),
             locals := setVal s.locals f.name (.num v) }, false)
  else if f.is_dynamic_array = false then
    if buf.length < s.offset + f.min_size then
      .ok (s, true)
    else
      match extractValue f.field_type (slice buf s.offset f.min_size) with
      | .error e => .error e
      | .ok v =>
        match decomposeStep (setVal s.values f.name v) f.name v f.min_size f.bitfields_count with
        | .error e => .error e
        | .ok values2 =>
          .ok ({ s with
                 offset := s.offset + f.min_size,
                 values := values2,
                 locals := setVal s.locals f.name v }, false)
  else
    match lookupVal s.locals f.size_defining_field with
    | some (.num L) =>
      if L < f.min_size ∨ f.max_size < L then .error ()
      else if buf.length < s.offset + L then .error ()
      else
        match extractValue f.field_type (slice buf s.offset L) with
        | .error e => .error e
        | .ok v =>
          match decomposeStep (setVal s.values f.name v) f.name v L f.bitfields_count with
          | .error e => .error e
          | .ok values2 =>
            .ok ({ s with
                 offset := s.offset + L,
                 values := values2,
                 locals := setVal s.locals f.name v }, false)
    | _ => .error ()

def staticRunFields (buf : List Nat) : St → List FieldSpec → Except Unit (St × Bool)
  | s, [] => .ok (s, false)
  | s, f :: fs =>
    match staticProcessField buf s f with
    | .error e => .error e
    | .ok (s1, true) => .ok (s1, true)
    | .ok (s1, false) => staticRunFields buf s1 fs

/- The static dissector, gen_diss2.py lines 402-541.  The info column always
   carries the "Static: " prefix followed by the sorted summary, and is set
   only when no `return` ran. -/
def staticRun (fl : List FieldSpec) (buf : List Nat) : Except Unit Outcome :=
  if buf.length = 0 then .ok ⟨[], [], true, none⟩
  else
    match staticRunFields buf initSt fl with
    | .error e => .error e
    | .ok (s, halted) =>
      .ok ⟨s.values, s.errors, halted,
        if halted then none
        else some ("Static: " ++ summaryStr s.values)⟩

/- ProtoField declarations emitted per field (gen_diss2.py lines 79-127):
   the width/signedness class Wireshark uses to render the field. -/
inductive PFType
  | uint8
  | uint16
  | uint32
  | uint64
  | int32
  | float
  | double
  | str
deriving DecidableEq, Repr

/- Width switch shared by the int and bitfield declarations: declared sizes
   1/2/4/8 map to the matching unsigned width, anything else falls back to
   uint32. -/
def intWidthPF (size : Nat) : PFType :=
  if size = 1 then .uint8
  else if size = 2 then .uint16
  else if size = 4 then .uint32
  else if size = 8 then .uint64
  else .uint32

def protoFieldFor (f : FieldSpec) : PFType :=
  match f.field_type with
  | .bool => .uint8
  | .int => intWidthPF f.min_size
  | .float => .float
  | .double => .double
  | .long => if f.min_size = 8 then .uint64 else .int32
  | .char => .str
  | .bitfield => intWidthPF f.min_size
  | .other => .str

/- Schema conditions under which the emitted Lua cannot raise (used for the
   amended form of the exception-freedom claim): no dynamic fields, float and
   double fields wide enough for string.unpack, and every decomposition has an
   evenly dividing bit width on an integer-typed field. -/
def wfField (f : FieldSpec) : Bool :=
  !f.is_dynamic_array
  && (if f.field_type = .float then decide (4 ≤ f.min_size) else true)
  && (if f.field_type = .double then decide (8 ≤ f.min_size) else true)
  && (match f.bitfields_count with
      | none => true
      | some n =>
        if n = 0 then true
        else if f.field_type = .bitfield then true
        else decide ((f.min_size * 8) % n = 0)
          && (decide (f.field_type = .int) || decide (f.field_type = .bool)
              || decide (f.field_type = .long)))

/- Example field declarations used to instantiate the theorems below.
   seqField/flagsField are the two-field schema of the spec's Scenarios A/B. -/

def seqField : FieldSpec := ⟨"seq", .int, 2, 2, false, "", some 0, some 65535, none⟩

def flagsField : FieldSpec := ⟨"flags", .bitfield, 1, 1, false, "", none, none, some 3⟩

def alphaField : FieldSpec := ⟨"alpha", .int, 2, 2, false, "", none, none, none⟩

def betaField : FieldSpec := ⟨"beta", .bitfield, 2, 2, false, "", none, none, some 1⟩

def gammaField : FieldSpec := ⟨"gamma", .int, 1, 1, false, "", none, none, some 3⟩

def lenField : FieldSpec := ⟨"len", .int, 1, 1, false, "", none, none, none⟩

def payloadField : FieldSpec := ⟨"payload", .char, 1, 10, true, "len", none, none, none⟩

/-- C10: on an empty input buffer both the full-validation and the static
dissector return immediately: no field is parsed, no error is recorded, the
walk counts as aborted, and no info line of any kind is produced.  This is the
`if buffer:len() == 0 then return end` guard emitted at lines 147 and 403. -/
theorem claim_C10 (fl : List FieldSpec) :
    fullRun fl [] = .ok ⟨[], [], true, none⟩ ∧
    staticRun fl [] = .ok ⟨[], [], true, none⟩ :=
  ⟨rfl, rfl⟩

/-- C2: a `long` field is declared as an unsigned 64-bit ProtoField exactly
when its declared size is 8 bytes, and as a signed 32-bit ProtoField for every
other declared size (gen_diss2.py lines 103-107): the extraction call mirrors
the same asymmetry, using uint64() for size 8 and uint() otherwise. -/
theorem claim_C2 (f : FieldSpec) (h : f.field_type = .long) :
    (f.min_size = 8 → protoFieldFor f = .uint64) ∧
    (f.min_size ≠ 8 → protoFieldFor f = .int32) := by
  constructor <;> intro h8 <;> simp [protoFieldFor, h, h8]

theorem claim_C2_witness :
    protoFieldFor ⟨"lng8", .long, 8, 8, false, "", none, none, none⟩ = .uint64 ∧
    protoFieldFor ⟨"lng2", .long, 2, 2, false, "", none, none, none⟩ = .int32 :=
  ⟨(claim_C2 ⟨"lng8", .long, 8, 8, false, "", none, none, none⟩ rfl).1 rfl,
   (claim_C2 ⟨"lng2", .long, 2, 2, false, "", none, none, none⟩ rfl).2 (by decide)⟩

/-- C9: an int or bitfield field whose declared byte size is none of 1, 2, 4,
8 falls back to the 4-byte unsigned ProtoField (gen_diss2.py lines 95-96 and
122-123), and processing such a field records no error: with sufficient bytes
an int field with no range bounds decodes normally, leaving the error list
unchanged. -/
theorem claim_C9 (f : FieldSpec)
    (hty : f.field_type = .int ∨ f.field_type = .bitfield)
    (h1 : f.min_size ≠ 1) (h2 : f.min_size ≠ 2) (h4 : f.min_size ≠ 4) (h8 : f.min_size ≠ 8) :
    protoFieldFor f = .uint32 ∧
    (∀ (buf : List Nat) (s : St),
      f.field_type = .int → f.is_dynamic_array = false →
      f.min_value = none → f.bitfields_count = none →
      s.offset + f.min_size ≤ buf.length →
      processField buf s f =
        .ok ({ offset := s.offset + f.min_size,
               errors := s.errors,
               values := setVal s.values f.name (.num (beNat (slice buf s.offset f.min_size))),
               locals := setVal s.locals f.name (.num (beNat (slice buf s.offset f.min_size))) },
             false)) := by
  constructor
  · rcases hty with h | h <;> simp [protoFieldFor, h, intWidthPF, h1, h2, h4, h8]
  · intro buf s hint hdyn hmn hcnt hle
    simp [processField, hint, hdyn, hmn, hcnt, extractValue, decomposeStep,
      Nat.not_lt.mpr hle]

theorem claim_C9_witness :
    protoFieldFor ⟨"eps", .int, 3, 3, false, "", none, none, none⟩ = .uint32 ∧
    (∀ (buf : List Nat) (s : St),
      FieldType.int = .int → false = false → (none : Option Int) = none →
      (none : Option Nat) = none → s.offset + 3 ≤ buf.length →
      processField buf s ⟨"eps", .int, 3, 3, false, "", none, none, none⟩ =
        .ok ({ offset := s.offset + 3,
               errors := s.errors,
               values := setVal s.values "eps" (.num (beNat (slice buf s.offset 3))),
               locals := setVal s.locals "eps" (.num (beNat (slice buf s.offset 3))) },
             false)) :=
  claim_C9 ⟨"eps", .int, 3, 3, false, "", none, none, none⟩ (Or.inl rfl)
    (by decide) (by decide) (by decide) (by decide)

/-- C1 counterexample: the claim asserts every too-short buffer yields exactly
one InsufficientBytes error, but the fixed-size non-bitfield bounds check
(gen_diss2.py lines 204-207) returns without recording any error or setting
dpi_error: a 1-byte buffer against a schema whose first field is a 2-byte int
aborts with an empty error list. -/
theorem claim_C1_counterexample :
    ([0] : List Nat).length < alphaField.min_size ∧
    fullRun [alphaField] [0] = .ok ⟨[], [], true, none⟩ ∧
    (fullRun [alphaField] [0]).map (fun o => o.errors.length) = .ok 0 :=
  ⟨by decide, rfl, rfl⟩

/-- C1 amended: when the buffer is non-empty but shorter than the first
(non-dynamic) field's declared length, decoding aborts before any later field
with an empty value set and no info line; exactly one "Not enough bytes"
error is recorded when that first field is a bitfield (lines 181-186), and no
error at all when it is any other fixed-size field (lines 204-207). -/
theorem claim_C1_amended (f : FieldSpec) (rest : List FieldSpec) (buf : List Nat)
    (hdyn : f.is_dynamic_array = false) (hne : buf ≠ [])
    (hlt : buf.length < f.min_size) :
    ∃ o, fullRun (f :: rest) buf = .ok o ∧
      o.values = [] ∧ o.halted = true ∧ o.info = none ∧
      (f.field_type = .bitfield → o.errors = [notEnoughMsg f.name]) ∧
      (f.field_type ≠ .bitfield → o.errors = []) := by
  have hlen : ¬ buf.length = 0 := by
    simpa [List.length_eq_zero] using hne
  have hlt0 : buf.length < 0 + f.min_size := by omega
  by_cases hbf : f.field_type = .bitfield
  · refine ⟨⟨[], [notEnoughMsg f.name], true, none⟩, ?_, rfl, rfl, rfl,
      fun _ => rfl, fun h => absurd hbf h⟩
    simp [fullRun, runFields, processField, initSt, hbf, hlen, hlt0, hlt]
  · refine ⟨⟨[], [], true, none⟩, ?_, rfl, rfl, rfl,
      fun h => absurd h hbf, fun _ => rfl⟩
    simp [fullRun, runFields, processField, initSt, hbf, hdyn, hlen, hlt0, hlt]

theorem claim_C1_witness :
    ∃ o, fullRun [betaField] [7] = .ok o ∧
      o.values = [] ∧ o.halted = true ∧ o.info = none ∧
      (betaField.field_type = .bitfield → o.errors = [notEnoughMsg betaField.name]) ∧
      (betaField.field_type ≠ .bitfield → o.errors = []) :=
  claim_C1_amended betaField [] [7] (by decide) (by decide) (by decide)

/-- C4: processing a bitfield field of width W bytes with sufficient bytes
stores, unconditionally, the big-endian binary-digit string of the raw value
(a W*8-character string, most-significant bit first: character k is bit
W*8-1-k), advances past the field without halting, and appends the
BitPopulationMismatch error exactly when the population count of the raw
value differs from the declared bitfields_count (gen_diss2.py lines 180-202). -/
theorem claim_C4 (buf : List Nat) (s : St) (f : FieldSpec) (c : Nat)
    (hty : f.field_type = .bitfield)
    (hc : f.bitfields_count = some c)
    (hlen : s.offset + f.min_size ≤ buf.length) :
    processField buf s f =
      .ok ({ offset := s.offset + f.min_size,
             errors :=
               if popcount (beNat (slice buf s.offset f.min_size)) ≠ c then
                 s.errors ++ [bitMismatchMsg f.name (Nat.repr c)
                   (Nat.repr (popcount (beNat (slice buf s.offset f.min_size))))]
               else s.errors,
             values := setVal s.values f.name
               (.str (toBinaryStr (beNat (slice buf s.offset f.min_size)) (f.min_size * 8))),
             locals := setVal s.locals f.name
               (.num (beNat (slice buf s.offset f.min_size))) }, false) ∧
    (toBinaryStr (beNat (slice buf s.offset f.min_size)) (f.min_size * 8)).length =
      f.min_size * 8 ∧
    (∀ k, k < f.min_size * 8 →
      (toBinaryStr (beNat (slice buf s.offset f.min_size)) (f.min_size * 8)).data.get? k =
        some (if (beNat (slice buf s.offset f.min_size)).testBit (f.min_size * 8 - 1 - k)
              then '1' else '0')) := by
  refine ⟨?_, ?_, ?_⟩
  · simp [processField, hty, hc, Nat.not_lt.mpr hlen]
  · simp [toBinaryStr, String.length]
  · intro k hk
    simp [toBinaryStr, List.get?_eq_getElem?, List.getElem?_map, List.getElem?_range, hk]

theorem claim_C4_witness :
    processField [3] initSt flagsField =
      .ok ({ offset := 1,
             errors := ["Bitfield flags expected 3 bits set, got 2"],
             values := [("flags", LuaVal.str "00000011")],
             locals := [("flags", LuaVal.num 3)] }, false) ∧
    ("00000011" : String).length = 8 :=
  ⟨((claim_C4 [3] initSt flagsField 3 rfl rfl (by decide)).1).trans rfl,
   by decide⟩

/-- C6: a dynamic field resolves its length to the numeric value the emitted
Lua holds in the local named by size_defining_field; a resolved length
outside [min_size, max_size] appends one DynamicLengthOutOfRange message
without halting, and decoding continues to use exactly that length both for
the bounds check (halting, with a second message, when the buffer is too
short) and for the extraction slice (gen_diss2.py lines 249-278). -/
theorem claim_C6 (buf : List Nat) (s : St) (f : FieldSpec) (L : Nat) (v : LuaVal)
    (hdyn : f.is_dynamic_array = true)
    (hbf : f.field_type ≠ .bitfield)
    (hsz : lookupVal s.locals f.size_defining_field = some (.num L))
    (hcnt : f.bitfields_count = none) :
    (buf.length < s.offset + L →
      processField buf s f =
        .ok ({ s with errors :=
            (if L < f.min_size ∨ f.max_size < L then
               s.errors ++ [lengthRangeMsg f.name]
             else s.errors) ++ [notEnoughMsg f.name] }, true)) ∧
    (s.offset + L ≤ buf.length →
      extractValue f.field_type (slice buf s.offset L) = .ok v →
      processField buf s f =
        .ok ({ offset := s.offset + L,
               errors :=
                 if L < f.min_size ∨ f.max_size < L then
                   s.errors ++ [lengthRangeMsg f.name]
                 else s.errors,
               values := setVal s.values f.name v,
               locals := setVal s.locals f.name v }, false)) := by
  constructor
  · intro hshort
    simp [processField, hbf, hdyn, hsz, hshort]
  · intro hle hex
    simp [processField, hbf, hdyn, hsz, hex, hcnt, decomposeStep, Nat.not_lt.mpr hle]

theorem claim_C6_witness :
    (([3, 97, 98, 99] : List Nat).length < (⟨1, [], [("len", .num 3)],
        [("len", .num 3)]⟩ : St).offset + 3 →
      processField [3, 97, 98, 99] ⟨1, [], [("len", .num 3)], [("len", .num 3)]⟩
          payloadField =
        .ok ({ (⟨1, [], [("len", .num 3)], [("len", .num 3)]⟩ : St) with errors :=
            (if 3 < payloadField.min_size ∨ payloadField.max_size < 3 then
               [] ++ [lengthRangeMsg payloadField.name]
             else []) ++ [notEnoughMsg payloadField.name] }, true)) ∧
    ((⟨1, [], [("len", .num 3)], [("len", .num 3)]⟩ : St).offset + 3 ≤
        ([3, 97, 98, 99] : List Nat).length →
      extractValue payloadField.field_type (slice [3, 97, 98, 99] 1 3) = .ok (.str "abc") →
      processField [3, 97, 98, 99] ⟨1, [], [("len", .num 3)], [("len", .num 3)]⟩
          payloadField =
        .ok ({ offset := 1 + 3,
               errors :=
                 if 3 < payloadField.min_size ∨ payloadField.max_size < 3 then
                   [] ++ [lengthRangeMsg payloadField.name]
                 else [],
               values := setVal [("len", .num 3)] payloadField.name (.str "abc"),
               locals := setVal [("len", .num 3)] payloadField.name (.str "abc") },
             false)) :=
  claim_C6 [3, 97, 98, 99] ⟨1, [], [("len", .num 3)], [("len", .num 3)]⟩
    payloadField 3 (.str "abc") rfl (by decide) rfl rfl

/-- C7 counterexample: the claim quantifies over every decode, but a decode
that aborts (here: buffer shorter than a first bitfield field) accumulates an
error and yet produces no report at all - the emitted `return` skips the
info-column assignment of lines 301-312, so the info line is none rather than
the "[DPI Error: ...]" string. -/
theorem claim_C7_counterexample :
    fullRun [betaField] [7] = .ok ⟨[], [notEnoughMsg "beta"], true, none⟩ ∧
    (none : Option String) ≠ some (dpiErrorStr [notEnoughMsg "beta"]) :=
  ⟨rfl, by decide⟩

/-- C7 amended: for every decode that completes the whole field list (no
abort), a non-empty error list is reported as "[DPI Error: " ++ errors joined
by "; " ++ "]", and an empty error list as the lexicographically sorted,
comma-joined name=value pairs; in particular the Scenario B schema and buffer
0x00 0x05 0b00000011 report exactly
"[DPI Error: Bitfield flags expected 3 bits set, got 2]". -/
theorem claim_C7_amended :
    (∀ (fl : List FieldSpec) (buf : List Nat) (o : Outcome),
      fullRun fl buf = .ok o → o.halted = false →
      (o.errors ≠ [] → o.info = some (dpiErrorStr o.errors)) ∧
      (o.errors = [] → o.info = some (summaryStr o.values))) ∧
    fullRun [seqField, flagsField] [0, 5, 3] =
      .ok ⟨[("seq", .num 5), ("flags", .str "00000011")],
           ["Bitfield flags expected 3 bits set, got 2"], false,
           some "[DPI Error: Bitfield flags expected 3 bits set, got 2]"⟩ := by
  constructor
  · intro fl buf o h hh
    unfold fullRun at h
    by_cases hb : buf.length = 0
    · rw [if_pos hb] at h
      cases h
      simp at hh
    · rw [if_neg hb] at h
      cases hr : runFields buf initSt fl with
      | error e => rw [hr] at h; cases h
      | ok p =>
        obtain ⟨s, halted⟩ := p
        rw [hr] at h
        cases h
        simp only [Outcome.halted] at hh
        subst hh
        constructor
        · intro hne
          have hne1 : s.errors ≠ [] := hne
          simp [List.isEmpty_iff, hne1]
        · intro hnil
          have hnil1 : s.errors = [] := hnil
          simp [hnil1]
  · rfl

def scenBOutcome : Outcome :=
  ⟨[("seq", .num 5), ("flags", .str "00000011")],
   ["Bitfield flags expected 3 bits set, got 2"], false,
   some "[DPI Error: Bitfield flags expected 3 bits set, got 2]"⟩

theorem claim_C7_witness :
    (scenBOutcome.errors ≠ [] → scenBOutcome.info = some (dpiErrorStr scenBOutcome.errors)) ∧
    (scenBOutcome.errors = [] → scenBOutcome.info = some (summaryStr scenBOutcome.values)) :=
  claim_C7_amended.1 [seqField, flagsField] [0, 5, 3] scenBOutcome rfl rfl

/- The static dissector never touches an error accumulator: every field step
   leaves the (unused) error list unchanged. -/
lemma staticProcessField_errors (buf : List Nat) (s : St) (f : FieldSpec) (r : St × Bool)
    (h : staticProcessField buf s f = .ok r) : r.1.errors = s.errors := by
  unfold staticProcessField at h
  by_cases h1 : f.field_type = .bitfield
  · rw [if_pos h1] at h
    by_cases h2 : buf.length < s.offset + f.min_size
    · rw [if_pos h2] at h; cases h; rfl
    · rw [if_neg h2] at h; cases h; rfl
  · rw [if_neg h1] at h
    by_cases h3 : f.is_dynamic_array = false
    · rw [if_pos h3] at h
      by_cases h2 : buf.length < s.offset + f.min_size
      · rw [if_pos h2] at h; cases h; rfl
      · rw [if_neg h2] at h
        cases hx : extractValue f.field_type (slice buf s.offset f.min_size) with
        | error e => rw [hx] at h; cases h
        | ok v =>
          rw [hx] at h
          dsimp only at h
          cases hd : decomposeStep (setVal s.values f.name v) f.name v f.min_size
              f.bitfields_count with
          | error e => rw [hd] at h; cases h
          | ok values2 => rw [hd] at h; cases h; rfl
    · rw [if_neg h3] at h
      cases hl : lookupVal s.locals f.size_defining_field with
      | none => rw [hl] at h; cases h
      | some lv =>
        rw [hl] at h
        cases lv with
        | num L =>
          dsimp only at h
          by_cases h4 : L < f.min_size ∨ f.max_size < L
          · rw [if_pos h4] at h; cases h
          · rw [if_neg h4] at h
            by_cases h5 : buf.length < s.offset + L
            · rw [if_pos h5] at h; cases h
            · rw [if_neg h5] at h
              cases hx : extractValue f.field_type (slice buf s.offset L) with
              | error e => rw [hx] at h; cases h
              | ok v =>
                rw [hx] at h
                dsimp only at h
                cases hd : decomposeStep (setVal s.values f.name v) f.name v L
                    f.bitfields_count with
                | error e => rw [hd] at h; cases h
                | ok values2 => rw [hd] at h; cases h; rfl
        | str sv => dsimp only at h; cases h
        | flt fv => dsimp only at h; cases h

lemma staticRunFields_errors (buf : List Nat) (fl : List FieldSpec) :
    ∀ (s : St) (r : St × Bool), staticRunFields buf s fl = .ok r → r.1.errors = s.errors := by
  induction fl with
  | nil =>
    intro s r h
    cases h
    rfl
  | cons f fs ih =>
    intro s r h
    unfold staticRunFields at h
    cases hp : staticProcessField buf s f with
    | error e => rw [hp] at h; cases h
    | ok p =>
      obtain ⟨s1, b⟩ := p
      rw [hp] at h
      have he1 := staticProcessField_errors buf s f (s1, b) hp
      cases b
      · change staticRunFields buf s1 fs = .ok r at h
        exact (ih s1 r h).trans he1
      · change Except.ok (s1, true) = .ok r at h
        cases h
        exact he1

/-- C8 counterexample: the claim says static mode always outputs the
success-path sorted summary, but a buffer shorter than the first field makes
the static dissector return before the summary code (lines 451-453): no info
line is produced at all. -/
theorem claim_C8_counterexample :
    ([0] : List Nat).length < alphaField.min_size ∧
    staticRun [alphaField] [0] = .ok ⟨[], [], true, none⟩ ∧
    (none : Option String) ≠ some ("Static: " ++ summaryStr []) :=
  ⟨by decide, rfl, by decide⟩

/-- C8 amended: static mode records no error of any kind (range and
bit-population validation affect nothing observable), and whenever it
produces an info line at all that line is the success-path sorted summary
under the "Static: " prefix - never the error-report format; in particular
the Scenario B buffer whose bitfield fails the population check still yields
the plain static summary.  When decoding aborts (insufficient bytes) no line
is produced, and a dynamic field whose resolved length is out of range makes
the emitted code raise (table.insert on the undeclared error_messages) rather
than record anything. -/
theorem claim_C8_amended :
    (∀ (fl : List FieldSpec) (buf : List Nat) (o : Outcome),
      staticRun fl buf = .ok o →
      o.errors = [] ∧
      (o.info = none ∨ o.info = some ("Static: " ++ summaryStr o.values))) ∧
    staticRun [seqField, flagsField] [0, 5, 3] =
      .ok ⟨[("seq", .num 5), ("flags", .str "00000011")], [], false,
           some "Static: flags=00000011, seq=5"⟩ := by
  constructor
  · intro fl buf o h
    unfold staticRun at h
    by_cases hb : buf.length = 0
    · rw [if_pos hb] at h
      cases h
      exact ⟨rfl, Or.inl rfl⟩
    · rw [if_neg hb] at h
      cases hr : staticRunFields buf initSt fl with
      | error e => rw [hr] at h; cases h
      | ok p =>
        obtain ⟨s, halted⟩ := p
        rw [hr] at h
        cases h
        have he := staticRunFields_errors buf fl initSt (s, halted) hr
        refine ⟨he, ?_⟩
        cases halted
        · exact Or.inr rfl
        · exact Or.inl rfl
  · rfl

def c8Out : Outcome := ⟨[("alpha", LuaVal.num 1)], [], false, some "Static: alpha=1"⟩

theorem claim_C8_witness :
    c8Out.errors = [] ∧
    (c8Out.info = none ∨ c8Out.info = some ("Static: " ++ summaryStr c8Out.values)) :=
  claim_C8_amended.1 [alphaField] [0, 1] c8Out rfl

/- The decomposition loop in divide/modulo form. -/
lemma decompose_eq_divmod (raw tb n : Nat) :
    decompose raw tb n =
      (List.range n).map (fun i => raw / 2 ^ ((n - 1 - i) * (tb / n)) % 2 ^ (tb / n)) := by
  unfold decompose
  simp [Nat.shiftRight_eq_div_pow, Nat.one_shiftLeft, Nat.and_pow_two_sub_one_eq_mod]

/- Folding the most-significant-first groups back together recovers the
   successive quotients of the raw value. -/
lemma decompose_foldl_partial (raw g n : Nat) (hraw : raw < 2 ^ (n * g)) :
    ∀ k, k ≤ n →
      ((List.range k).map (fun i => raw / 2 ^ ((n - 1 - i) * g) % 2 ^ g)).foldl
        (fun a v => a * 2 ^ g + v) 0 = raw / 2 ^ ((n - k) * g) := by
  intro k
  induction k with
  | zero =>
    intro _
    simpa using (Nat.div_eq_of_lt hraw).symm
  | succ k ih =>
    intro hk
    rw [List.range_succ, List.map_append, List.foldl_append, ih (by omega)]
    simp only [List.map_cons, List.map_nil, List.foldl_cons, List.foldl_nil]
    have h2 : (n - k) * g = (n - 1 - k) * g + g := by
      have h1 : n - k = (n - 1 - k) + 1 := by omega
      rw [h1]; ring
    have h3 : n - (k + 1) = n - 1 - k := by omega
    rw [h2, h3, pow_add, ← Nat.div_div_eq_div_mul]
    conv_lhs => rw [Nat.mul_comm]
    exact Nat.div_add_mod (raw / 2 ^ ((n - 1 - k) * g)) (2 ^ g)

/-- C5: decomposing a non-bitfield field of width W bytes with count n > 0
(bit width dividing evenly) yields exactly n sub-values, each below
2^(W*8/n); folding them back most-significant-first reconstructs any raw
value below 2^(W*8); and the decode step stores exactly these sub-values
under the synthesized names name_bf0 .. name_bf(n-1) alongside the raw value
(gen_diss2.py lines 237-248). -/
theorem claim_C5 (W n raw : Nat) (hn : 0 < n) (hdvd : (W * 8) % n = 0) :
    (decompose raw (W * 8) n).length = n ∧
    (∀ v ∈ decompose raw (W * 8) n, v < 2 ^ (W * 8 / n)) ∧
    (raw < 2 ^ (W * 8) →
      (decompose raw (W * 8) n).foldl (fun a v => a * 2 ^ (W * 8 / n) + v) 0 = raw) ∧
    (∀ (buf : List Nat) (s : St) (f : FieldSpec),
      f.field_type = .int → f.is_dynamic_array = false → f.min_value = none →
      f.bitfields_count = some n → f.min_size = W →
      s.offset + W ≤ buf.length →
      processField buf s f =
        .ok ({ offset := s.offset + W,
               errors := s.errors,
               values := storeBf (setVal s.values f.name
                   (.num (beNat (slice buf s.offset W))))
                 f.name (decompose (beNat (slice buf s.offset W)) (W * 8) n),
               locals := setVal s.locals f.name (.num (beNat (slice buf s.offset W))) },
             false)) := by
  have hng : n * (W * 8 / n) = W * 8 := Nat.mul_div_cancel' (Nat.dvd_of_mod_eq_zero hdvd)
  refine ⟨?_, ?_, ?_, ?_⟩
  · simp [decompose]
  · intro v hv
    rw [decompose_eq_divmod] at hv
    obtain ⟨i, _, hi⟩ := List.mem_map.mp hv
    rw [← hi]
    exact Nat.mod_lt _ (Nat.pos_pow_of_pos _ (by omega))
  · intro hraw
    rw [decompose_eq_divmod]
    have h := decompose_foldl_partial raw (W * 8 / n) n (by rw [hng]; exact hraw) n le_rfl
    simpa using h
  · intro buf s f hint hdyn hmn hcnt hW hle
    subst hW
    simp [processField, hint, hdyn, hmn, hcnt, extractValue, decomposeStep, hdvd,
      Nat.pos_iff_ne_zero.mp hn, Nat.not_lt.mpr hle]

theorem claim_C5_witness :
    (decompose 165 (1 * 8) 2).length = 2 ∧
    (∀ v ∈ decompose 165 (1 * 8) 2, v < 2 ^ (1 * 8 / 2)) ∧
    (165 < 2 ^ (1 * 8) →
      (decompose 165 (1 * 8) 2).foldl (fun a v => a * 2 ^ (1 * 8 / 2) + v) 0 = 165) ∧
    (∀ (buf : List Nat) (s : St) (f : FieldSpec),
      f.field_type = .int → f.is_dynamic_array = false → f.min_value = none →
      f.bitfields_count = some 2 → f.min_size = 1 →
      s.offset + 1 ≤ buf.length →
      processField buf s f =
        .ok ({ offset := s.offset + 1,
               errors := s.errors,
               values := storeBf (setVal s.values f.name
                   (.num (beNat (slice buf s.offset 1))))
                 f.name (decompose (beNat (slice buf s.offset 1)) (1 * 8) 2),
               locals := setVal s.locals f.name (.num (beNat (slice buf s.offset 1))) },
             false)) :=
  claim_C5 1 2 165 (by decide) (by decide)

lemma length_slice (buf : List Nat) (off n : Nat) (h : off + n ≤ buf.length) :
    (slice buf off n).length = n := by
  simp only [slice, List.length_take, List.length_drop]
  omega

lemma wfField_parts (f : FieldSpec) (h : wfField f = true) :
    f.is_dynamic_array = false ∧
    (f.field_type = .float → 4 ≤ f.min_size) ∧
    (f.field_type = .double → 8 ≤ f.min_size) ∧
    (∀ n, f.bitfields_count = some n → n ≠ 0 → f.field_type ≠ .bitfield →
      (f.min_size * 8) % n = 0 ∧
      (f.field_type = .int ∨ f.field_type = .bool ∨ f.field_type = .long)) := by
  simp only [wfField, Bool.and_eq_true, Bool.not_eq_true'] at h
  obtain ⟨⟨⟨h1, h2⟩, h3⟩, h4⟩ := h
  refine ⟨h1, ?_, ?_, ?_⟩
  · intro hf
    rw [if_pos hf] at h2
    exact of_decide_eq_true h2
  · intro hd
    rw [if_pos hd] at h3
    exact of_decide_eq_true h3
  · intro n hn hne hbf
    rw [hn] at h4
    dsimp only at h4
    rw [if_neg hne, if_neg hbf] at h4
    simp only [Bool.and_eq_true, Bool.or_eq_true, decide_eq_true_eq] at h4
    exact ⟨h4.1, or_assoc.mp h4.2⟩

lemma decomposeStep_total (vs : List (String × LuaVal)) (name : String) (v : LuaVal)
    (lenBytes : Nat) (cnt : Option Nat)
    (h : ∀ n, cnt = some n → n ≠ 0 → (lenBytes * 8) % n = 0 ∧ ∃ raw, v = .num raw) :
    ∃ vs2, decomposeStep vs name v lenBytes cnt = .ok vs2 := by
  cases cnt with
  | none => exact ⟨vs, rfl⟩
  | some n =>
    by_cases hz : n = 0
    · subst hz
      exact ⟨vs, rfl⟩
    · obtain ⟨hmod, raw, hraw⟩ := h n rfl hz
      subst hraw
      refine ⟨storeBf vs name (decompose raw (lenBytes * 8) n), ?_⟩
      simp [decomposeStep, hz, hmod]

lemma processField_total (buf : List Nat) (s : St) (f : FieldSpec)
    (hwf : wfField f = true) : ∃ r, processField buf s f = .ok r := by
  obtain ⟨hdyn, hf4, hd8, hbfc⟩ := wfField_parts f hwf
  by_cases hbf : f.field_type = .bitfield
  · unfold processField
    rw [if_pos hbf]
    split
    · exact ⟨_, rfl⟩
    · exact ⟨_, rfl⟩
  · unfold processField
    rw [if_neg hbf, if_pos hdyn]
    by_cases hlt : buf.length < s.offset + f.min_size
    · rw [if_pos hlt]
      exact ⟨_, rfl⟩
    · rw [if_neg hlt]
      have hsl : (slice buf s.offset f.min_size).length = f.min_size :=
        length_slice buf s.offset f.min_size (by omega)
      have hext : ∃ v, extractValue f.field_type (slice buf s.offset f.min_size) = .ok v ∧
          ((f.field_type = .int ∨ f.field_type = .bool ∨ f.field_type = .long) →
            ∃ raw, v = .num raw) := by
        cases hty : f.field_type with
        | int => exact ⟨_, rfl, fun _ => ⟨_, rfl⟩⟩
        | bool => exact ⟨_, rfl, fun _ => ⟨_, rfl⟩⟩
        | long => exact ⟨_, rfl, fun _ => ⟨_, rfl⟩⟩
        | bitfield => exact absurd hty hbf
        | char => exact ⟨_, rfl, fun hcon => by rcases hcon with h | h | h <;> cases h⟩
        | other => exact ⟨_, rfl, fun hcon => by rcases hcon with h | h | h <;> cases h⟩
        | float =>
          have hok : ¬ (slice buf s.offset f.min_size).length < 4 := by
            rw [hsl]
            exact Nat.not_lt.mpr (hf4 hty)
          refine ⟨.flt (decodeF32 ((slice buf s.offset f.min_size).take 4)), ?_, ?_⟩
          · simp [extractValue, hok]
          · intro hcon
            rcases hcon with h | h | h <;> cases h
        | double =>
          have hok : ¬ (slice buf s.offset f.min_size).length < 8 := by
            rw [hsl]
            exact Nat.not_lt.mpr (hd8 hty)
          refine ⟨.flt (decodeF64 ((slice buf s.offset f.min_size).take 8)), ?_, ?_⟩
          · simp [extractValue, hok]
          · intro hcon
            rcases hcon with h | h | h <;> cases h
      obtain ⟨v, hv, hnum⟩ := hext
      rw [hv]
      dsimp only
      obtain ⟨vs2, hvs2⟩ := decomposeStep_total (setVal s.values f.name v) f.name v
        f.min_size f.bitfields_count
        (fun n hn hz => ⟨(hbfc n hn hz hbf).1, hnum (hbfc n hn hz hbf).2⟩)
      rw [hvs2]
      exact ⟨_, rfl⟩

lemma staticProcessField_total (buf : List Nat) (s : St) (f : FieldSpec)
    (hwf : wfField f = true) : ∃ r, staticProcessField buf s f = .ok r := by
  obtain ⟨hdyn, hf4, hd8, hbfc⟩ := wfField_parts f hwf
  by_cases hbf : f.field_type = .bitfield
  · unfold staticProcessField
    rw [if_pos hbf]
    split
    · exact ⟨_, rfl⟩
    · exact ⟨_, rfl⟩
  · unfold staticProcessField
    rw [if_neg hbf, if_pos hdyn]
    by_cases hlt : buf.length < s.offset + f.min_size
    · rw [if_pos hlt]
      exact ⟨_, rfl⟩
    · rw [if_neg hlt]
      have hsl : (slice buf s.offset f.min_size).length = f.min_size :=
        length_slice buf s.offset f.min_size (by omega)
      have hext : ∃ v, extractValue f.field_type (slice buf s.offset f.min_size) = .ok v ∧
          ((f.field_type = .int ∨ f.field_type = .bool ∨ f.field_type = .long) →
            ∃ raw, v = .num raw) := by
        cases hty : f.field_type with
        | int => exact ⟨_, rfl, fun _ => ⟨_, rfl⟩⟩
        | bool => exact ⟨_, rfl, fun _ => ⟨_, rfl⟩⟩
        | long => exact ⟨_, rfl, fun _ => ⟨_, rfl⟩⟩
        | bitfield => exact absurd hty hbf
        | char => exact ⟨_, rfl, fun hcon => by rcases hcon with h | h | h <;> cases h⟩
        | other => exact ⟨_, rfl, fun hcon => by rcases hcon with h | h | h <;> cases h⟩
        | float =>
          have hok : ¬ (slice buf s.offset f.min_size).length < 4 := by
            rw [hsl]
            exact Nat.not_lt.mpr (hf4 hty)
          refine ⟨.flt (decodeF32 ((slice buf s.offset f.min_size).take 4)), ?_, ?_⟩
          · simp [extractValue, hok]
          · intro hcon
            rcases hcon with h | h | h <;> cases h
        | double =>
          have hok : ¬ (slice buf s.offset f.min_size).length < 8 := by
            rw [hsl]
            exact Nat.not_lt.mpr (hd8 hty)
          refine ⟨.flt (decodeF64 ((slice buf s.offset f.min_size).take 8)), ?_, ?_⟩
          · simp [extractValue, hok]
          · intro hcon
            rcases hcon with h | h | h <;> cases h
      obtain ⟨v, hv, hnum⟩ := hext
      rw [hv]
      dsimp only
      obtain ⟨vs2, hvs2⟩ := decomposeStep_total (setVal s.values f.name v) f.name v
        f.min_size f.bitfields_count
        (fun n hn hz => ⟨(hbfc n hn hz hbf).1, hnum (hbfc n hn hz hbf).2⟩)
      rw [hvs2]
      exact ⟨_, rfl⟩

lemma runFields_total (buf : List Nat) :
    ∀ (fl : List FieldSpec), (∀ f ∈ fl, wfField f = true) →
      ∀ s, ∃ r, runFields buf s fl = .ok r := by
  intro fl
  induction fl with
  | nil =>
    intro _ s
    exact ⟨(s, false), rfl⟩
  | cons f fs ih =>
    intro hwf s
    obtain ⟨⟨s1, b⟩, h1⟩ := processField_total buf s f (hwf f (by simp))
    unfold runFields
    rw [h1]
    cases b
    · exact ih (fun g hg => hwf g (by simp [hg])) s1
    · exact ⟨(s1, true), rfl⟩

lemma staticRunFields_total (buf : List Nat) :
    ∀ (fl : List FieldSpec), (∀ f ∈ fl, wfField f = true) →
      ∀ s, ∃ r, staticRunFields buf s fl = .ok r := by
  intro fl
  induction fl with
  | nil =>
    intro _ s
    exact ⟨(s, false), rfl⟩
  | cons f fs ih =>
    intro hwf s
    obtain ⟨⟨s1, b⟩, h1⟩ := staticProcessField_total buf s f (hwf f (by simp))
    unfold staticRunFields
    rw [h1]
    cases b
    · exact ih (fun g hg => hwf g (by simp [hg])) s1
    · exact ⟨(s1, true), rfl⟩

/-- C3 counterexample: the claim asserts the decode routine never raises, in
particular when a non-bitfield field's bit width is not divisible by its
decomposition count; but exactly there the emitted Lua computes
`(1 << bits_per_field)` with the fractional shift 8/3, which raises: a 1-byte
int field with bitfields_count = 3 makes the whole dissector call fail
instead of returning a result. -/
theorem claim_C3_counterexample :
    (gammaField.min_size * 8) % 3 ≠ 0 ∧
    fullRun [gammaField] [171] = .error () :=
  ⟨by decide, rfl⟩

/-- C3 amended: no exception escapes and a populated result is returned
provided the schema avoids the raising corners: no dynamic fields, float and
double fields at least 4 and 8 bytes wide, and every non-zero decomposition
count sits on an int/bool/long field whose bit width it divides evenly.
Under these conditions both the full-validation and the static dissector
always return an Outcome, for every buffer. -/
theorem claim_C3_amended (fl : List FieldSpec) (buf : List Nat)
    (hwf : ∀ f ∈ fl, wfField f = true) :
    (∃ o, fullRun fl buf = .ok o) ∧ (∃ o, staticRun fl buf = .ok o) := by
  constructor
  · unfold fullRun
    by_cases hb : buf.length = 0
    · rw [if_pos hb]
      exact ⟨_, rfl⟩
    · rw [if_neg hb]
      obtain ⟨⟨s, halted⟩, hr⟩ := runFields_total buf fl hwf initSt
      rw [hr]
      exact ⟨_, rfl⟩
  · unfold staticRun
    by_cases hb : buf.length = 0
    · rw [if_pos hb]
      exact ⟨_, rfl⟩
    · rw [if_neg hb]
      obtain ⟨⟨s, halted⟩, hr⟩ := staticRunFields_total buf fl hwf initSt
      rw [hr]
      exact ⟨_, rfl⟩

theorem claim_C3_witness :
    (∃ o, fullRun [alphaField] [0, 1] = .ok o) ∧
    (∃ o, staticRun [alphaField] [0, 1] = .ok o) :=
  claim_C3_amended [alphaField] [0, 1] (by decide)

end GenDiss
